import Mathlib

/-!
Verification of the KIAUH extensions menu subsystem
(`kiauh/extensions/extensions_menu.py`): extension discovery
(`discover_extensions`), the bulk selection loop
(`bulk_install_extensions`) and the batch installer
(`_install_selected_extensions`).

The Python code is shallowly embedded: Python strings are Lean `String`s,
with the string primitives used by the code (`strip`, `lower`, `split`,
`int(...)`) re-implemented structurally over `String.data` so that they
compute; filesystem contents, the dynamic import machinery and the opaque
extension actions are oracle inputs (`Pkg`, `ExtClass.construct`, the
`act` argument); a Python exception is a value of `ExcKind`, and a
function that can raise returns `Except ExcKind _`.
-/

/-- The Python exception classes relevant to `extensions_menu.py`.
`discover_extensions` catches exactly `(IOError, json.JSONDecodeError,
ImportError)`; every other exception propagates out of the scan.
`indexError` models the `IndexError` raised by
`inspect.getmembers(module, predicate)[0]` on an empty member list,
`valueError` the `ValueError` raised by `int(...)` on an unparseable key,
and `otherError` any further exception class (e.g. `AttributeError`,
`TypeError` from instantiation). -/
inductive ExcKind where
  | ioError
  | jsonDecodeError
  | importError
  | indexError
  | valueError
  | otherError
  deriving DecidableEq, Repr

/-- Whether an exception is caught by the `except (IOError,
json.JSONDecodeError, ImportError)` clause of `discover_extensions`. -/
def ExcKind.isCaught : ExcKind → Bool
  | .ioError => true
  | .jsonDecodeError => true
  | .importError => true
  | _ => false

/-- The nested `metadata` object of a package's `metadata.json`.
`index` holds the result of `f"{metadata.get('index')}"`, i.e. the
stringified ordering key under which the instance is inserted. -/
structure Metadata where
  module : String
  index : String
  display_name : String
  updates : Bool
  description : List String
  website : Option String
  repo : Option String
  deriving DecidableEq, Repr

/-- A live extension instance (`BaseExtension` subclass instance).
`objId` models Python object identity: the loader constructs each
instance separately, so distinct instances carry distinct ids, and
equality of this structure models Python `==` (default: identity). -/
structure BaseExtension where
  objId : Nat
  metadata : Metadata
  deriving DecidableEq, Repr

/-- A concrete class found in an imported extension module.
`construct` is the outcome of `ext_class(metadata)`: an instance, or the
exception the constructor raises. -/
structure ExtClass where
  construct : Metadata → Except ExcKind BaseExtension

/-- One immediate child of `EXTENSION_ROOT`, as the loader observes it.
`metadata` is the outcome of `open` + `json.load` + `.get("metadata")`
(`ioError` from `open`, `jsonDecodeError` from `json.load`, `otherError`
when the document has no `"metadata"` object and `None.get(...)` raises
`AttributeError`).  `classes` is the outcome of
`importlib.import_module` followed by `inspect.getmembers(module,
predicate)`: the classes of the module that are concrete subclasses of
`BaseExtension`, in `getmembers`' (name-sorted) order, or the exception
the import raises. -/
structure Pkg where
  name : String
  hasMetadataJson : Bool
  metadata : Except ExcKind Metadata
  classes : Except ExcKind (List ExtClass)

/-- The `print(f"Failed loading extension {ext}: {e}")` log line emitted
for a package whose load failed with a caught exception. -/
inductive LoadEv where
  | failedLoading (pkgName : String) (err : ExcKind)
  deriving DecidableEq, Repr

/-- The menu-facing registry: the `Dict[str, BaseExtension]` produced by
`discover_extensions`, as an order-preserving association list. -/
abbrev Registry := List (String × BaseExtension)

/-- Python `dict` assignment `d[k] = v`: an existing key keeps its
position and gets the new value, a new key is appended at the end. -/
def insertDict (d : Registry) (k : String) (v : BaseExtension) : Registry :=
  if d.any (fun p => p.1 == k) then
    d.map (fun p => if p.1 == k then (k, v) else p)
  else
    d ++ [(k, v)]

/-- The body of the `try` block of `discover_extensions` for one package:
read the metadata, import the module, take `getmembers(...)[0]` (raising
`IndexError` when no class matches the predicate), instantiate the first
matching class, and produce the `(f"{metadata.get('index')}", instance)`
pair to insert. -/
def loadResult (p : Pkg) : Except ExcKind (String × BaseExtension) := do
  let md ← p.metadata
  let cls ← p.classes
  match cls with
  | [] => Except.error ExcKind.indexError
  | c :: _ => do
      let inst ← c.construct md
      pure (md.index, inst)

/-- One iteration of the `for ext in EXTENSION_ROOT.iterdir()` loop:
skip silently when `metadata.json` is missing, otherwise run the `try`
body; a caught exception is logged and the package skipped, any other
exception propagates. -/
def scanStep (acc : Registry × List LoadEv) (p : Pkg) :
    Except ExcKind (Registry × List LoadEv) :=
  if !p.hasMetadataJson then
    Except.ok acc
  else
    match loadResult p with
    | Except.ok (k, v) => Except.ok (insertDict acc.1 k v, acc.2)
    | Except.error e =>
        if e.isCaught then
          Except.ok (acc.1, acc.2 ++ [LoadEv.failedLoading p.name e])
        else
          Except.error e

/-- The whole discovery loop over the children of `EXTENSION_ROOT`. -/
def scanPkgs : List Pkg → Registry × List LoadEv →
    Except ExcKind (Registry × List LoadEv)
  | [], acc => Except.ok acc
  | p :: ps, acc =>
      match scanStep acc p with
      | Except.ok acc' => scanPkgs ps acc'
      | Except.error e => Except.error e

/-- Python `str.strip()`: remove leading and trailing whitespace. -/
def pyStrip (s : String) : String :=
  String.mk (((s.data.dropWhile Char.isWhitespace).reverse.dropWhile
    Char.isWhitespace).reverse)

/-- Python `str.lower()` (ASCII case folding, as used on the command
words `'done'` and `'all'`). -/
def pyLower (s : String) : String :=
  String.mk (s.data.map Char.toLower)

/-- Worker for `pySplit`, accumulating the current word reversed. -/
def pySplitGo : List Char → List Char → List String
  | [], [] => []
  | [], acc => [String.mk acc.reverse]
  | c :: cs, acc =>
      if c.isWhitespace then
        if acc.isEmpty then pySplitGo cs []
        else String.mk acc.reverse :: pySplitGo cs []
      else pySplitGo cs (c :: acc)

/-- Python `str.split()` with no argument: split on runs of whitespace,
discarding empty pieces. -/
def pySplit (s : String) : List String :=
  pySplitGo s.data []

/-- Numeric value of a nonempty all-digit character list. -/
def digitsVal? (ds : List Char) : Option Nat :=
  if ds.isEmpty then none
  else if ds.all Char.isDigit then
    some (ds.foldl (fun n c => 10 * n + (c.toNat - 48)) 0)
  else none

/-- Python `int(s)` for a decimal string: surrounding whitespace is
ignored, an optional single `+`/`-` sign precedes one or more digits;
`none` models the `ValueError` raised on any other shape. -/
def pyInt? (s : String) : Option Int :=
  match (pyStrip s).data with
  | '+' :: ds => (digitsVal? ds).map (fun n => (n : Int))
  | '-' :: ds => (digitsVal? ds).map (fun n => -(n : Int))
  | ds => (digitsVal? ds).map (fun n => (n : Int))

/-- The sort key `int(x[0])` of one registry entry (total stand-in; it is
only used on keys that parse). -/
def keyInt (kv : String × BaseExtension) : Int :=
  (pyInt? kv.1).getD 0

/-- The comparison used by `sorted(ext_dict.items(), key=lambda x:
int(x[0]))`. -/
def regLe (a b : String × BaseExtension) : Bool :=
  decide (keyInt a ≤ keyInt b)

/-- Insert `x` into `l` after every element `y` with `le y x`; the
insertion step of a stable sort. -/
def insertSorted {α : Type} (le : α → α → Bool) (x : α) : List α → List α
  | [] => [x]
  | y :: ys => if le y x then y :: insertSorted le x ys else x :: y :: ys

/-- Python's `sorted`: a stable comparison sort (equal elements keep
their original relative order), here as a left-to-right insertion
sort. -/
def stableSort {α : Type} (le : α → α → Bool) (l : List α) : List α :=
  l.foldl (fun acc x => insertSorted le x acc) []

/-- `discover_extensions`: scan every child of the root (given here as
the `iterdir()` listing), then sort the collected dictionary by the
integer value of the keys.  `sorted` applies `int` to every key, so an
unparseable key raises `ValueError` out of the function; the result
carries the registry together with the failed-load log lines printed
during the scan. -/
def discover_extensions (ps : List Pkg) :
    Except ExcKind (Registry × List LoadEv) := do
  let (d, evs) ← scanPkgs ps ([], [])
  if d.all (fun kv => (pyInt? kv.1).isSome) then
    pure (stableSort regLe d, evs)
  else
    Except.error ExcKind.valueError

/-- The registry produced by `discover_extensions`, without the log. -/
def discoverRegistry (ps : List Pkg) : Except ExcKind Registry :=
  (discover_extensions ps).map Prod.fst

/-- Dictionary lookup `self.extensions[idx]` (with the `idx in
self.extensions` membership test folded in as `Option`). -/
def dictGet (reg : Registry) (k : String) : Option BaseExtension :=
  (reg.find? (fun p => p.1 == k)).map Prod.snd

/-- The messages printed by the bulk selection loop
(`bulk_install_extensions`), carrying their dynamic data. -/
inductive SelEv where
  | addedMsg (name : String)
  | alreadySelectedMsg (name : String)
  | invalidMsg (token : String)
  | selectedAllMsg (count : Nat)
  | currentListMsg (names : List String)
  deriving DecidableEq, Repr

/-- `if ext not in sel: sel.append(ext)`. -/
def insertNew (sel : List BaseExtension) (e : BaseExtension) :
    List BaseExtension :=
  if e ∈ sel then sel else sel ++ [e]

/-- Left fold of `insertNew` (appending every element not yet present,
keeping first-selection order). -/
def insertAll (sel : List BaseExtension) (l : List BaseExtension) :
    List BaseExtension :=
  l.foldl insertNew sel

/-- Processing of one token `idx` of a selection line: a known key is
appended to the line's temporary batch unless already there, an unknown
key is reported and changes nothing. -/
def tokenStep (reg : Registry) (acc : List BaseExtension × List SelEv)
    (idx : String) : List BaseExtension × List SelEv :=
  match dictGet reg idx with
  | some ext =>
      if ext ∈ acc.1 then
        (acc.1, acc.2 ++ [SelEv.alreadySelectedMsg ext.metadata.display_name])
      else
        (acc.1 ++ [ext], acc.2 ++ [SelEv.addedMsg ext.metadata.display_name])
  | none => (acc.1, acc.2 ++ [SelEv.invalidMsg idx])

/-- The `else` branch of the selection loop for one input line: fold the
tokens into a temporary batch, then (when the batch is nonempty) merge it
into the accumulated selection and echo the current selection. -/
def processTokens (reg : Registry) (selected : List BaseExtension)
    (tokens : List String) : List BaseExtension × List SelEv :=
  let (temp, evs) := tokens.foldl (tokenStep reg) ([], [])
  if temp.isEmpty then
    (selected, evs)
  else
    let selected' := insertAll selected temp
    (selected', evs ++ [SelEv.currentListMsg
      (selected'.map (fun e => e.metadata.display_name))])

/-- The `while True` selection loop of `bulk_install_extensions`, over
the stripped lines read from stdin: `'done'` returns the accumulated
selection, `'all'` replaces it with every registry value and returns,
anything else is processed token by token.  Exhausting the input makes
`input()` raise `EOFError`, modelled as a `none` result (the events
printed up to that point are still reported). -/
def selectionLoop (reg : Registry) :
    List String → List BaseExtension →
    Option (List BaseExtension) × List SelEv
  | [], _ => (none, [])
  | line :: rest, selected =>
      let s := pyStrip line
      if pyLower s == "done" then
        (some selected, [])
      else if pyLower s == "all" then
        (some (reg.map Prod.snd),
         [SelEv.selectedAllMsg (reg.map Prod.snd).length])
      else
        let (selected', evs) := processTokens reg selected (pySplit s)
        let (res, evs') := selectionLoop reg rest selected'
        (res, evs ++ evs')

/-- The output lines of `_install_selected_extensions`: the
`[{i}/{total}] Installing {name}...` progress marker and the per-item
success/failure markers. -/
inductive Ev where
  | progressMark (i : Nat) (total : Nat) (name : String)
  | okMark (name : String)
  | failMark (name : String) (err : String)
  deriving DecidableEq, Repr

/-- Projection of a progress marker, for stating trace properties. -/
def Ev.progressData : Ev → Option (Nat × Nat × String)
  | .progressMark i total name => some (i, total, name)
  | _ => none

/-- The summary assembled by `_install_selected_extensions`, together
with the full output trace of the loop. -/
structure BatchOutcome where
  total : Nat
  successful : Nat
  failed : List String
  events : List Ev
  deriving DecidableEq, Repr

/-- The `for i, extension in enumerate(extensions, 1)` loop: emit the
progress marker, invoke `install_extension()`; success increments
`successful`, an exception appends the display name to `failed`; either
way the loop continues with the next item. -/
def installLoop (act : BaseExtension → Except String Unit) (total : Nat) :
    Nat → List BaseExtension → Nat → List String → List Ev →
    Nat × List String × List Ev
  | _, [], successful, failed, out => (successful, failed, out)
  | i, ext :: rest, successful, failed, out =>
      let name := ext.metadata.display_name
      let out' := out ++ [Ev.progressMark i total name]
      match act ext with
      | Except.ok _ =>
          installLoop act total (i + 1) rest (successful + 1) failed
            (out' ++ [Ev.okMark name])
      | Except.error e =>
          installLoop act total (i + 1) rest successful (failed ++ [name])
            (out' ++ [Ev.failMark name e])

/-- `_install_selected_extensions`: run the loop over the selection with
1-based enumeration and package the summary.  `act` is the outcome of
each instance's opaque `install_extension()` call (`Except.error`
carrying the exception's description). -/
def _install_selected_extensions (act : BaseExtension → Except String Unit)
    (extensions : List BaseExtension) : BatchOutcome :=
  let total := extensions.length
  let r := installLoop act total 1 extensions 0 [] []
  ⟨total, r.1, r.2.1, r.2.2⟩

/-- Whether `install_extension()` succeeds for `e` under the action
oracle `act`. -/
def actOk (act : BaseExtension → Except String Unit)
    (e : BaseExtension) : Bool :=
  match act e with
  | Except.ok _ => true
  | Except.error _ => false

/-- The expected output trace of the batch loop starting at 1-based
index `i`: for each item, a progress marker followed by its
success/failure marker. -/
def batchTrace (act : BaseExtension → Except String Unit) (total : Nat) :
    Nat → List BaseExtension → List Ev
  | _, [] => []
  | i, ext :: rest =>
      let name := ext.metadata.display_name
      Ev.progressMark i total name ::
        (match act ext with
         | Except.ok _ => Ev.okMark name
         | Except.error e => Ev.failMark name e) ::
        batchTrace act total (i + 1) rest

/-- Result of one `bulk_install_extensions` call: `eofError` when the
input lines run out inside the selection loop (`input()` raises),
`aborted` for the early `return` on an empty selection, `cancelled` when
the confirmation prompt is declined, `installed` when the batch runs. -/
inductive BulkOutcome where
  | eofError
  | aborted
  | cancelled (sel : List BaseExtension)
  | installed (sel : List BaseExtension) (batch : BatchOutcome)
  deriving DecidableEq, Repr

/-- The batch-executor output trace of a bulk outcome: empty unless the
installer actually ran. -/
def BulkOutcome.batchEvents : BulkOutcome → List Ev
  | .installed _ b => b.events
  | _ => []

/-- `bulk_install_extensions`: run the selection loop from an empty
selection over the stdin lines; an empty result prints
`"No extensions selected."` and returns, otherwise the confirmation
prompt (`confirm`) gates `_install_selected_extensions`. -/
def bulk_install_extensions (act : BaseExtension → Except String Unit)
    (reg : Registry) (lines : List String) (confirm : Bool) : BulkOutcome :=
  match (selectionLoop reg lines []).1 with
  | none => BulkOutcome.eofError
  | some sel =>
      if sel.isEmpty then BulkOutcome.aborted
      else if confirm then
        BulkOutcome.installed sel (_install_selected_extensions act sel)
      else BulkOutcome.cancelled sel

/-! Concrete sample data, used to instantiate theorems and to exhibit
counterexamples. -/

/-- Metadata of a sample extension with ordering key `"1"`. -/
def mdA : Metadata :=
  ⟨"extension_a", "1", "Extension A", false, [], none, none⟩

/-- Metadata of a sample extension with ordering key `"2"`. -/
def mdB : Metadata :=
  ⟨"extension_b", "2", "Extension B", true, [], none, none⟩

/-- A sample live instance for `mdA`. -/
def extA : BaseExtension := ⟨0, mdA⟩

/-- A sample live instance for `mdB`. -/
def extB : BaseExtension := ⟨1, mdB⟩

/-- A sample two-entry registry in key order. -/
def sampleReg : Registry := [("1", extA), ("2", extB)]

/-- A class whose constructor returns `extA`. -/
def clsA : ExtClass := ⟨fun md => Except.ok ⟨0, md⟩⟩

/-- A class whose constructor returns `extB`. -/
def clsB : ExtClass := ⟨fun md => Except.ok ⟨1, md⟩⟩

/-- A well-formed package for `mdA`. -/
def pkgA : Pkg := ⟨"ext_a", true, Except.ok mdA, Except.ok [clsA]⟩

/-- A well-formed package for `mdB`. -/
def pkgB : Pkg := ⟨"ext_b", true, Except.ok mdB, Except.ok [clsB]⟩

/-- A class whose constructor raises (a `TypeError` in `__init__`, say:
not one of the caught exception classes). -/
def clsBoom : ExtClass := ⟨fun _ => Except.error ExcKind.otherError⟩

/-- A package whose metadata and import succeed but whose instantiation
raises. -/
def pkgBoom : Pkg := ⟨"ext_boom", true, Except.ok mdA, Except.ok [clsBoom]⟩

/-- A package whose imported module contains no concrete
`BaseExtension` subclass. -/
def pkgZero : Pkg := ⟨"ext_zero", true, Except.ok mdA, Except.ok []⟩

/-- First of two candidate classes in one module. -/
def clsFirst : ExtClass := ⟨fun md => Except.ok ⟨10, md⟩⟩

/-- Second of two candidate classes in one module. -/
def clsSecond : ExtClass := ⟨fun md => Except.ok ⟨20, md⟩⟩

/-- A package whose imported module contains two concrete
`BaseExtension` subclasses. -/
def pkgTwo : Pkg :=
  ⟨"ext_two", true, Except.ok mdA, Except.ok [clsFirst, clsSecond]⟩

/-- A sample action oracle under which every install succeeds. -/
def sampleAct : BaseExtension → Except String Unit :=
  fun _ => Except.ok ()

/-- A package whose `metadata.json` cannot be opened (`IOError`). -/
def pkgIO : Pkg :=
  ⟨"ext_io", true, Except.error ExcKind.ioError, Except.ok []⟩

/-! Helper lemmas about the discovery scan. -/

/-- A package failing with a caught exception is logged and skipped. -/
lemma scanStep_caught (p : Pkg) (e : ExcKind) (hm : p.hasMetadataJson = true)
    (hl : loadResult p = Except.error e) (hc : e.isCaught = true)
    (acc : Registry × List LoadEv) :
    scanStep acc p =
      Except.ok (acc.1, acc.2 ++ [LoadEv.failedLoading p.name e]) := by
  simp [scanStep, hm, hl, hc]

/-- The dictionary component of the scan does not depend on the log
accumulated so far. -/
lemma scanPkgs_fst_indep (ps : List Pkg) : ∀ (d : Registry)
    (evs evs' : List LoadEv),
    (scanPkgs ps (d, evs)).map Prod.fst =
      (scanPkgs ps (d, evs')).map Prod.fst := by
  induction ps with
  | nil => intro d evs evs'; rfl
  | cons p ps ih =>
      intro d evs evs'
      cases hm : p.hasMetadataJson with
      | false => simpa [scanPkgs, scanStep, hm] using ih d evs evs'
      | true =>
          cases hl : loadResult p with
          | ok kv =>
              obtain ⟨k, v⟩ := kv
              simpa [scanPkgs, scanStep, hm, hl] using ih _ evs evs'
          | error e =>
              cases hc : e.isCaught with
              | false => simp [scanPkgs, scanStep, hm, hl, hc]
              | true => simpa [scanPkgs, scanStep, hm, hl, hc] using ih d _ _

/-- A package failing with a caught exception contributes nothing to the
dictionary of any scan it appears in. -/
lemma scanPkgs_skip_caught (p : Pkg) (e : ExcKind)
    (hm : p.hasMetadataJson = true) (hl : loadResult p = Except.error e)
    (hc : e.isCaught = true) (ps₂ : List Pkg) : ∀ (ps₁ : List Pkg)
    (acc : Registry × List LoadEv),
    (scanPkgs (ps₁ ++ p :: ps₂) acc).map Prod.fst =
      (scanPkgs (ps₁ ++ ps₂) acc).map Prod.fst := by
  intro ps₁
  induction ps₁ with
  | nil =>
      intro acc
      obtain ⟨d, evs⟩ := acc
      have h := scanStep_caught p e hm hl hc (d, evs)
      simp only [List.nil_append, scanPkgs, h]
      exact scanPkgs_fst_indep ps₂ d _ _
  | cons q qs ih =>
      intro acc
      simp only [List.cons_append, scanPkgs]
      cases hq : scanStep acc q with
      | ok acc' => exact ih acc'
      | error e' => rfl

/-- Two scans with the same dictionary outcome produce the same
registry. -/
lemma discoverRegistry_congr {ps ps' : List Pkg}
    (h : (scanPkgs ps ([], [])).map Prod.fst =
      (scanPkgs ps' ([], [])).map Prod.fst) :
    discoverRegistry ps = discoverRegistry ps' := by
  unfold discoverRegistry discover_extensions
  cases h₁ : scanPkgs ps ([], []) with
  | error e =>
      cases h₂ : scanPkgs ps' ([], []) with
      | error e' =>
          rw [h₁, h₂] at h
          simp only [Except.map] at h
          injection h with h
          subst h
          rfl
      | ok acc => rw [h₁, h₂] at h; simp [Except.map] at h
  | ok acc =>
      cases h₂ : scanPkgs ps' ([], []) with
      | error e' => rw [h₁, h₂] at h; simp [Except.map] at h
      | ok acc' =>
          rw [h₁, h₂] at h
          simp only [Except.map] at h
          injection h with h
          obtain ⟨d, evs⟩ := acc
          obtain ⟨d', evs'⟩ := acc'
          simp only at h
          subst h
          by_cases hall : d.all (fun kv => (pyInt? kv.1).isSome)
          · simp [hall, bind, Except.bind, Except.map, pure, Except.pure]
          · simp [hall, bind, Except.bind, Except.map, pure, Except.pure]

/-- C1 (counterexample): the claim says any exception during a package's
load steps — including an instantiation failure — is logged, the package
excluded, and the scan continued.  But `except (IOError,
json.JSONDecodeError, ImportError)` does not catch the constructor's
exception: for the root `[pkgBoom, pkgB]`, whose first package raises on
instantiation, `discover_extensions` raises out of the scan and the
well-formed `pkgB` is never loaded — no Registry is produced at all. -/
theorem c1_counterexample :
    discover_extensions [pkgBoom, pkgB] =
      Except.error ExcKind.otherError := rfl

/-- C1 (amended): on an `IOError`, `json.JSONDecodeError` or
`ImportError` during a package's load steps, the package's identity and
the error are logged, that package is excluded from the result, and the
scan continues with the next package; exceptions of other kinds
propagate out of the scan. -/
theorem c1_load_error_isolation (ps₁ ps₂ : List Pkg) (p : Pkg)
    (e : ExcKind) (hm : p.hasMetadataJson = true)
    (hl : loadResult p = Except.error e) (hc : e.isCaught = true) :
    (∀ acc : Registry × List LoadEv,
        scanStep acc p =
          Except.ok (acc.1, acc.2 ++ [LoadEv.failedLoading p.name e])) ∧
    discoverRegistry (ps₁ ++ p :: ps₂) = discoverRegistry (ps₁ ++ ps₂) :=
  ⟨scanStep_caught p e hm hl hc,
   discoverRegistry_congr (scanPkgs_skip_caught p e hm hl hc ps₂ ps₁ ([], []))⟩

/-- C1 witness: `pkgIO` (whose `metadata.json` cannot be opened) is
logged and skipped, and discovery over `[pkgA, pkgIO, pkgB]` yields the
same registry as over `[pkgA, pkgB]`. -/
theorem c1_witness :
    scanStep ([], []) pkgIO =
      Except.ok ([], [LoadEv.failedLoading pkgIO.name ExcKind.ioError]) ∧
    discoverRegistry ([pkgA] ++ pkgIO :: [pkgB]) =
      discoverRegistry ([pkgA] ++ [pkgB]) :=
  ⟨(c1_load_error_isolation [pkgA] [pkgB] pkgIO ExcKind.ioError rfl rfl
      rfl).1 ([], []),
   (c1_load_error_isolation [pkgA] [pkgB] pkgIO ExcKind.ioError rfl rfl
      rfl).2⟩

/-- C2 (counterexample): the claim says a package whose module yields
two or more matching types is excluded from the Registry.  But the code
takes `inspect.getmembers(module, predicate)[0][1]` — the first
candidate — so `pkgTwo`, whose module holds the two candidates
`clsFirst` and `clsSecond`, is not excluded: it is loaded using
`clsFirst` and its entry is in the returned Registry. -/
theorem c2_counterexample :
    discoverRegistry [pkgTwo] =
      Except.ok [("1", BaseExtension.mk 10 mdA)] := rfl

/-- C2 (amended): with zero matching types, `getmembers(...)[0]` raises
an `IndexError` that is not caught, so the package is excluded but the
whole scan aborts (packages after it are never loaded); with one or more
matching types the loader instantiates the first candidate in member
order and the package is included — it does not require uniqueness. -/
theorem c2_candidate_discovery (p : Pkg) (md : Metadata)
    (hm : p.hasMetadataJson = true) (hmd : p.metadata = Except.ok md) :
    (p.classes = Except.ok [] →
       loadResult p = Except.error ExcKind.indexError ∧
       ∀ ps : List Pkg,
         discoverRegistry (p :: ps) = Except.error ExcKind.indexError) ∧
    (∀ (c : ExtClass) (rest : List ExtClass) (inst : BaseExtension),
       p.classes = Except.ok (c :: rest) → c.construct md = Except.ok inst →
       loadResult p = Except.ok (md.index, inst)) := by
  constructor
  · intro hcls
    have hl : loadResult p = Except.error ExcKind.indexError := by
      simp [loadResult, hmd, hcls, bind, Except.bind]
    refine ⟨hl, fun ps => ?_⟩
    have hstep : scanStep ([], []) p = Except.error ExcKind.indexError := by
      simp [scanStep, hm, hl, ExcKind.isCaught]
    simp [discoverRegistry, discover_extensions, scanPkgs, hstep, Except.map,
      bind, Except.bind]
  · intro c rest inst hcls hinst
    simp [loadResult, hmd, hcls, hinst, bind, Except.bind, Functor.map,
      Except.map, pure, Except.pure]

/-- C2 witness: a zero-candidate package aborts the whole scan
(`pkgB` after it is never loaded), and the two-candidate package
`pkgTwo` loads using its first candidate class. -/
theorem c2_witness :
    discoverRegistry (pkgZero :: [pkgB]) =
      Except.error ExcKind.indexError ∧
    loadResult pkgTwo = Except.ok (mdA.index, BaseExtension.mk 10 mdA) :=
  ⟨((c2_candidate_discovery pkgZero mdA rfl rfl).1 rfl).2 [pkgB],
   (c2_candidate_discovery pkgTwo mdA rfl rfl).2 clsFirst [clsSecond]
     (BaseExtension.mk 10 mdA) rfl rfl⟩

/-- C9: discovery is deterministic over an unchanged directory: two runs
of `discover_extensions` on the same `iterdir()` listing yield
registries with identical key sequences (hence key sets and iteration
order) and in fact identical entries. -/
theorem c9_deterministic (ps : List Pkg) (reg₁ reg₂ : Registry)
    (h₁ : discoverRegistry ps = Except.ok reg₁)
    (h₂ : discoverRegistry ps = Except.ok reg₂) :
    reg₁.map Prod.fst = reg₂.map Prod.fst ∧ reg₁ = reg₂ := by
  rw [h₁] at h₂
  injection h₂ with h
  exact ⟨by rw [h], h⟩

/-- C9 witness: two runs on the two-package listing `[pkgB, pkgA]`
(which also exercises the final sort) agree. -/
theorem c9_witness :
    ([("1", extA), ("2", extB)] : Registry).map Prod.fst =
      ([("1", extA), ("2", extB)] : Registry).map Prod.fst ∧
    ([("1", extA), ("2", extB)] : Registry) = [("1", extA), ("2", extB)] :=
  c9_deterministic [pkgB, pkgA] [("1", extA), ("2", extB)]
    [("1", extA), ("2", extB)] rfl rfl

/-- C4: in the bulk selection loop, a line whose stripped, lowercased
form is `"all"` replaces the accumulated selection with every Registry
entry in Registry iteration order — whatever was selected before —
reports the count, and exits the loop immediately, reading none of the
remaining input. -/
theorem c4_select_all (reg : Registry) (line : String)
    (rest : List String) (selected : List BaseExtension)
    (h : pyLower (pyStrip line) = "all") :
    selectionLoop reg (line :: rest) selected =
      (some (reg.map Prod.snd), [SelEv.selectedAllMsg reg.length]) := by
  simp [selectionLoop, h]

/-- C4 witness: `" ALL "` after a prior partial selection `[extB]`
selects the whole sample registry. -/
theorem c4_witness :
    selectionLoop sampleReg [" ALL "] [extB] =
      (some (sampleReg.map Prod.snd),
       [SelEv.selectedAllMsg sampleReg.length]) :=
  c4_select_all sampleReg " ALL " [] [extB] (by decide)

/-- C6 (counterexample): the claim says the case-insensitive command
`"finish"` exits the selection loop and returns the accumulated set.
But the loop's exit command is `'done'`: entering `"finish"` is treated
as an ordinary token line — it is reported as an invalid selection and
the loop keeps reading input (here hitting the end of input instead of
returning the accumulated empty set). -/
theorem c6_counterexample :
    (selectionLoop sampleReg ["finish"] []).1 = none ∧
    (selectionLoop sampleReg ["finish"] []).2 =
      [SelEv.invalidMsg "finish"] := by decide

/-- C6 (amended): the exit command is `"done"` (case-insensitive): it
exits the loop and returns the currently accumulated selection; an empty
accumulated set at that point is a valid, non-error outcome —
`bulk_install_extensions` returns without invoking any install
action. -/
theorem c6_done_returns_selection (reg : Registry) (line : String)
    (rest : List String) (selected : List BaseExtension)
    (act : BaseExtension → Except String Unit) (confirm : Bool)
    (h : pyLower (pyStrip line) = "done") :
    selectionLoop reg (line :: rest) selected = (some selected, []) ∧
    bulk_install_extensions act reg (line :: rest) confirm =
      BulkOutcome.aborted := by
  have key : ∀ sel : List BaseExtension,
      selectionLoop reg (line :: rest) sel = (some sel, []) := by
    intro sel
    simp [selectionLoop, h]
  exact ⟨key selected, by simp [bulk_install_extensions, key]⟩

/-- C6 witness: `" DONE "` returns the accumulated selection `[extA]`,
and with nothing selected the bulk workflow is a no-op. -/
theorem c6_witness :
    selectionLoop sampleReg [" DONE "] [extA] = (some [extA], []) ∧
    bulk_install_extensions sampleAct sampleReg [" DONE "] true =
      BulkOutcome.aborted :=
  c6_done_returns_selection sampleReg " DONE " [] [extA] sampleAct true
    (by decide)

/-- C10: if the selection loop ends with an empty accumulated set, or
the user declines the confirmation prompt, `bulk_install_extensions`
returns without invoking `install_extension` on any instance (its batch
trace is empty, so no extension state is touched). -/
theorem c10_no_install (act : BaseExtension → Except String Unit)
    (reg : Registry) (lines : List String) (confirm : Bool)
    (sel : List BaseExtension) :
    ((selectionLoop reg lines []).1 = some [] →
       bulk_install_extensions act reg lines confirm = BulkOutcome.aborted ∧
       (bulk_install_extensions act reg lines confirm).batchEvents = []) ∧
    ((selectionLoop reg lines []).1 = some sel → sel ≠ [] →
       bulk_install_extensions act reg lines false =
         BulkOutcome.cancelled sel ∧
       (bulk_install_extensions act reg lines false).batchEvents = []) := by
  constructor
  · intro h
    have hb : bulk_install_extensions act reg lines confirm =
        BulkOutcome.aborted := by
      simp [bulk_install_extensions, h]
    exact ⟨hb, by rw [hb]; rfl⟩
  · intro h hne
    have hb : bulk_install_extensions act reg lines false =
        BulkOutcome.cancelled sel := by
      simp [bulk_install_extensions, h, hne]
    exact ⟨hb, by rw [hb]; rfl⟩

/-- C10 witness: an immediate `"done"` aborts with no install attempted,
and declining the confirmation after selecting `"1"` cancels with no
install attempted. -/
theorem c10_witness :
    (bulk_install_extensions sampleAct sampleReg ["done"] true =
       BulkOutcome.aborted ∧
     (bulk_install_extensions sampleAct sampleReg ["done"] true).batchEvents =
       []) ∧
    (bulk_install_extensions sampleAct sampleReg ["1", "done"] false =
       BulkOutcome.cancelled [extA] ∧
     (bulk_install_extensions sampleAct sampleReg
        ["1", "done"] false).batchEvents = []) :=
  ⟨(c10_no_install sampleAct sampleReg ["done"] true [extA]).1 (by decide),
   (c10_no_install sampleAct sampleReg ["1", "done"] false [extA]).2
     (by decide) (by decide)⟩

/-- An action that fails exactly on `extB` (raising `"boom"`). -/
def failB : BaseExtension → Except String Unit :=
  fun e => if e.objId = 1 then Except.error "boom" else Except.ok ()

/-- Closed form of the installer loop: final counters and the emitted
trace, for any starting accumulators. -/
lemma installLoop_eq (act : BaseExtension → Except String Unit)
    (total : Nat) : ∀ (exts : List BaseExtension) (i s : Nat)
    (f : List String) (out : List Ev),
    installLoop act total i exts s f out =
      (s + exts.countP (actOk act),
       f ++ (exts.filter (fun e => !(actOk act e))).map
         (fun e => e.metadata.display_name),
       out ++ batchTrace act total i exts) := by
  intro exts
  induction exts with
  | nil => intro i s f out; simp [installLoop, batchTrace]
  | cons ext rest ih =>
      intro i s f out
      cases hact : act ext with
      | ok u =>
          have hok : actOk act ext = true := by simp [actOk, hact]
          simp [installLoop, hact, batchTrace, hok, ih, List.countP_cons,
            List.filter_cons]
          omega
      | error e =>
          have hko : actOk act ext = false := by simp [actOk, hact]
          simp [installLoop, hact, batchTrace, hko, ih, List.countP_cons,
            List.filter_cons]

/-- The progress markers contained in the expected trace: one marker per
item, indices counting up from `i`. -/
lemma batchTrace_progress (act : BaseExtension → Except String Unit)
    (total : Nat) : ∀ (exts : List BaseExtension) (i : Nat),
    (batchTrace act total i exts).filterMap Ev.progressData =
      (List.enumFrom i exts).map
        (fun p => (p.1, total, p.2.metadata.display_name)) := by
  intro exts
  induction exts with
  | nil => intro i; rfl
  | cons ext rest ih =>
      intro i
      cases hact : act ext with
      | ok u =>
          simp [batchTrace, hact, List.filterMap_cons, Ev.progressData,
            List.enumFrom, ih]
      | error e =>
          simp [batchTrace, hact, List.filterMap_cons, Ev.progressData,
            List.enumFrom, ih]

/-- C3: for every non-empty selection, the Batch Executor attempts the
action on all items in sequence order — its trace is exactly, per item,
a 1-based `i/N` progress marker followed by that item's success or
failure marker, so a raising item never prevents later items — and on
completion `successful` counts the items whose action did not raise
while `failed` lists the display names of the raising items in their
original order. -/
theorem c3_batch_executor (act : BaseExtension → Except String Unit)
    (exts : List BaseExtension) (hne : exts ≠ []) :
    (_install_selected_extensions act exts).total = exts.length ∧
    (_install_selected_extensions act exts).successful =
      exts.countP (actOk act) ∧
    (_install_selected_extensions act exts).failed =
      (exts.filter (fun e => !(actOk act e))).map
        (fun e => e.metadata.display_name) ∧
    (_install_selected_extensions act exts).events =
      batchTrace act exts.length 1 exts ∧
    ((_install_selected_extensions act exts).events).filterMap
        Ev.progressData =
      (List.enumFrom 1 exts).map
        (fun p => (p.1, exts.length, p.2.metadata.display_name)) := by
  simp [_install_selected_extensions, installLoop_eq, batchTrace_progress]

/-- C3 witness: on `[extA, extB, extA]` under `failB` (raises at
position 2 only): 2 successes, failure list `["Extension B"]`, and the
three progress markers `1/3`, `2/3`, `3/3` in order. -/
theorem c3_witness :
    (_install_selected_extensions failB [extA, extB, extA]).successful = 2 ∧
    (_install_selected_extensions failB [extA, extB, extA]).failed =
      ["Extension B"] ∧
    ((_install_selected_extensions failB [extA, extB, extA]).events).filterMap
        Ev.progressData =
      [(1, 3, "Extension A"), (2, 3, "Extension B"), (3, 3, "Extension A")] := by
  have h := c3_batch_executor failB [extA, extB, extA] (by decide)
  exact ⟨h.2.1.trans (by decide), h.2.2.1.trans (by decide),
    h.2.2.2.2.trans (by decide)⟩

/-! Helper lemmas about the selection accumulation. -/

/-- Membership survives an `insertNew`. -/
lemma mem_insertNew_left {x : BaseExtension} {sel : List BaseExtension}
    (h : x ∈ sel) (z : BaseExtension) : x ∈ insertNew sel z := by
  by_cases hz : z ∈ sel
  · simpa [insertNew, hz] using h
  · simp [insertNew, hz]
    exact Or.inl h

/-- The inserted element is a member afterwards. -/
lemma self_mem_insertNew (sel : List BaseExtension) (z : BaseExtension) :
    z ∈ insertNew sel z := by
  by_cases hz : z ∈ sel
  · simpa [insertNew, hz] using hz
  · simp [insertNew, hz]

/-- Membership in the base list survives `insertAll`. -/
lemma mem_insertAll_left {x : BaseExtension} :
    ∀ (l sel : List BaseExtension), x ∈ sel → x ∈ insertAll sel l := by
  intro l
  induction l with
  | nil => intro sel h; exact h
  | cons z l ih =>
      intro sel h
      simpa [insertAll] using ih (insertNew sel z) (mem_insertNew_left h z)

/-- Members of the inserted list are members of the result. -/
lemma mem_insertAll_right {x : BaseExtension} :
    ∀ (l sel : List BaseExtension), x ∈ l → x ∈ insertAll sel l := by
  intro l
  induction l with
  | nil => intro sel h; cases h
  | cons z l ih =>
      intro sel h
      rcases List.mem_cons.mp h with rfl | h
      · simpa [insertAll] using
          mem_insertAll_left l (insertNew sel x) (self_mem_insertNew sel x)
      · simpa [insertAll] using ih (insertNew sel z) h

/-- `insertAll` splits over an append of inserted lists. -/
lemma insertAll_append (sel l₁ l₂ : List BaseExtension) :
    insertAll sel (l₁ ++ l₂) = insertAll (insertAll sel l₁) l₂ := by
  simp [insertAll, List.foldl_append]

/-- Inserting `insertNew t x` is the same as inserting `t` and then
`x`. -/
lemma insertAll_insertNew (sel t : List BaseExtension)
    (x : BaseExtension) :
    insertAll sel (insertNew t x) = insertNew (insertAll sel t) x := by
  by_cases hx : x ∈ t
  · have hx' : x ∈ insertAll sel t := mem_insertAll_right t sel hx
    simp [insertNew, hx, hx']
  · have : insertNew t x = t ++ [x] := by simp [insertNew, hx]
    rw [this, insertAll_append]
    rfl

/-- Merging a deduplicated temporary batch is the same as merging the
raw list it was built from. -/
lemma insertAll_insertAll (sel : List BaseExtension) :
    ∀ (l t : List BaseExtension),
    insertAll sel (insertAll t l) = insertAll (insertAll sel t) l := by
  intro l
  induction l with
  | nil => intro t; rfl
  | cons x l ih =>
      intro t
      calc insertAll sel (insertAll (insertNew t x) l)
          = insertAll (insertAll sel (insertNew t x)) l := ih (insertNew t x)
        _ = insertAll (insertNew (insertAll sel t) x) l := by
              rw [insertAll_insertNew]

/-- `insertNew` preserves freedom from duplicates. -/
lemma insertNew_nodup {sel : List BaseExtension} (h : sel.Nodup)
    (x : BaseExtension) : (insertNew sel x).Nodup := by
  by_cases hx : x ∈ sel
  · simpa [insertNew, hx] using h
  · simp [insertNew, hx, List.nodup_append, h]

/-- `insertAll` preserves freedom from duplicates. -/
lemma insertAll_nodup : ∀ {l sel : List BaseExtension}, sel.Nodup →
    (insertAll sel l).Nodup := by
  intro l
  induction l with
  | nil => intro sel h; exact h
  | cons x l ih =>
      intro sel h
      simpa [insertAll] using ih (insertNew_nodup h x)

/-- The temporary batch built by the token fold is the dedup-insertion
of the successfully looked-up tokens. -/
lemma tokenFold_fst (reg : Registry) : ∀ (ts : List String)
    (t : List BaseExtension) (evs : List SelEv),
    (ts.foldl (tokenStep reg) (t, evs)).1 =
      insertAll t (ts.filterMap (dictGet reg)) := by
  intro ts
  induction ts with
  | nil => intro t evs; rfl
  | cons idx ts ih =>
      intro t evs
      cases hd : dictGet reg idx with
      | none =>
          simp [List.foldl_cons, tokenStep, hd, List.filterMap_cons, ih]
      | some ext =>
          by_cases hmem : ext ∈ t
          · simp [List.foldl_cons, tokenStep, hd, hmem,
              List.filterMap_cons, ih, insertAll, insertNew]
          · simp [List.foldl_cons, tokenStep, hd, hmem,
              List.filterMap_cons, ih, insertAll, insertNew]

/-- The token fold only ever appends to the event accumulator. -/
lemma tokenFold_events_mono (reg : Registry) : ∀ (ts : List String)
    (t : List BaseExtension) (evs : List SelEv),
    ∃ tail, (ts.foldl (tokenStep reg) (t, evs)).2 = evs ++ tail := by
  intro ts
  induction ts with
  | nil => intro t evs; exact ⟨[], by simp⟩
  | cons idx ts ih =>
      intro t evs
      cases hd : dictGet reg idx with
      | none =>
          obtain ⟨tail, htail⟩ :=
            ih t (evs ++ [SelEv.invalidMsg idx])
          exact ⟨SelEv.invalidMsg idx :: tail, by
            simp [List.foldl_cons, tokenStep, hd, htail]⟩
      | some ext =>
          by_cases hmem : ext ∈ t
          · obtain ⟨tail, htail⟩ :=
              ih t (evs ++ [SelEv.alreadySelectedMsg ext.metadata.display_name])
            exact ⟨SelEv.alreadySelectedMsg ext.metadata.display_name :: tail,
              by simp [List.foldl_cons, tokenStep, hd, hmem, htail]⟩
          · obtain ⟨tail, htail⟩ :=
              ih (t ++ [ext]) (evs ++ [SelEv.addedMsg ext.metadata.display_name])
            exact ⟨SelEv.addedMsg ext.metadata.display_name :: tail,
              by simp [List.foldl_cons, tokenStep, hd, hmem, htail]⟩

/-- An `insertAll` into the empty selection of a nonempty list is
nonempty. -/
lemma insertAll_nil_ne_nil (x : BaseExtension) (l : List BaseExtension) :
    insertAll [] (x :: l) ≠ [] := by
  intro h
  have hx : x ∈ insertAll ([] : List BaseExtension) (x :: l) :=
    mem_insertAll_right (x :: l) [] (List.mem_cons_self x l)
  rw [h] at hx
  cases hx

/-- The selection produced by processing one line's tokens is the
dedup-insertion of the looked-up tokens into the accumulated
selection. -/
lemma processTokens_fst (reg : Registry) (selected : List BaseExtension)
    (ts : List String) :
    (processTokens reg selected ts).1 =
      insertAll selected (ts.filterMap (dictGet reg)) := by
  unfold processTokens
  cases hfold : ts.foldl (tokenStep reg) ([], []) with
  | mk temp evs =>
      have htemp : temp = insertAll [] (ts.filterMap (dictGet reg)) := by
        have := tokenFold_fst reg ts [] []
        rw [hfold] at this
        exact this
      cases hlk : ts.filterMap (dictGet reg) with
      | nil =>
          have : temp = [] := by rw [htemp, hlk]; rfl
          simp [this, hlk, insertAll]
      | cons x l =>
          have hne : temp ≠ [] := by
            rw [htemp, hlk]
            exact insertAll_nil_ne_nil x l
          have hie : temp.isEmpty = false := by
            cases temp with
            | nil => exact absurd rfl hne
            | cons a b => rfl
          simp only [hie, Bool.false_eq_true, if_false, hlk]
          rw [htemp, hlk, insertAll_insertAll]
          rfl

/-- All the extensions looked up from the token lines `lines`, in
encounter order. -/
def lineLookups (reg : Registry) (lines : List String) :
    List BaseExtension :=
  (lines.map (fun l => (pySplit (pyStrip l)).filterMap (dictGet reg))).flatten

/-- Characterization of the selection loop on ordinary token lines
followed by a `"done"` line: the returned selection is the
dedup-insertion, in encounter order, of every successfully looked-up
token. -/
lemma selectionLoop_tokenLines (reg : Registry) (dline : String)
    (hd : pyLower (pyStrip dline) = "done") : ∀ (lines : List String)
    (selected : List BaseExtension),
    (∀ l ∈ lines,
      pyLower (pyStrip l) ≠ "done" ∧ pyLower (pyStrip l) ≠ "all") →
    (selectionLoop reg (lines ++ [dline]) selected).1 =
      some (insertAll selected (lineLookups reg lines)) := by
  intro lines
  induction lines with
  | nil =>
      intro selected _
      simp [selectionLoop, hd, lineLookups, insertAll]
  | cons l ls ih =>
      intro selected hl
      have h₁ : pyLower (pyStrip l) ≠ "done" := (hl l (by simp)).1
      have h₂ : pyLower (pyStrip l) ≠ "all" := (hl l (by simp)).2
      have hrest : ∀ l' ∈ ls,
          pyLower (pyStrip l') ≠ "done" ∧ pyLower (pyStrip l') ≠ "all" :=
        fun l' hl' => hl l' (List.mem_cons_of_mem l hl')
      simp only [List.cons_append, selectionLoop, h₁, h₂, beq_iff_eq,
        if_false, reduceIte]
      cases hpt : processTokens reg selected (pySplit (pyStrip l)) with
      | mk selected' evs =>
          cases hloop : selectionLoop reg (ls ++ [dline]) selected' with
          | mk res evs' =>
              have hres : res = some (insertAll selected' (lineLookups reg ls)) := by
                have := ih selected' hrest
                rw [hloop] at this
                exact this
              have hsel' : selected' =
                  insertAll selected ((pySplit (pyStrip l)).filterMap (dictGet reg)) := by
                have := processTokens_fst reg selected (pySplit (pyStrip l))
                rw [hpt] at this
                exact this
              simp only [hres, hsel']
              rw [← insertAll_append]
              simp [lineLookups]

/-- C7: over any run of ordinary selection lines closed by `"done"`, the
accumulated Selection Set is the dedup-insertion of the looked-up tokens
in encounter order: each extension is appended at the position of its
first selection, a repeated valid key is never appended again, and the
result is duplicate-free. -/
theorem c7_no_duplicates (reg : Registry) (selected : List BaseExtension)
    (lines : List String) (dline : String) (hsel : selected.Nodup)
    (hlines : ∀ l ∈ lines,
      pyLower (pyStrip l) ≠ "done" ∧ pyLower (pyStrip l) ≠ "all")
    (hd : pyLower (pyStrip dline) = "done") :
    (selectionLoop reg (lines ++ [dline]) selected).1 =
      some (insertAll selected (lineLookups reg lines)) ∧
    (insertAll selected (lineLookups reg lines)).Nodup :=
  ⟨selectionLoop_tokenLines reg dline hd lines selected hlines,
   insertAll_nodup hsel⟩

/-- C7 witness: the lines `"1 1"` and `"2 1"` (key `"1"` selected three
times over two lines) yield the duplicate-free selection in
first-selection order. -/
theorem c7_witness :
    (selectionLoop sampleReg (["1 1", "2 1"] ++ ["done"]) []).1 =
      some (insertAll [] (lineLookups sampleReg ["1 1", "2 1"])) ∧
    (insertAll [] (lineLookups sampleReg ["1 1", "2 1"])).Nodup :=
  c7_no_duplicates sampleReg [] ["1 1", "2 1"] "done" List.nodup_nil
    (by decide) (by decide)

/-- An unknown token leaves its invalid-selection report in the token
fold's event stream, wherever it sits in the line. -/
lemma invalid_mem_tokenFold (reg : Registry) (bad : String)
    (hbad : dictGet reg bad = none) (ts₂ : List String) :
    ∀ (ts₁ : List String) (t : List BaseExtension) (evs : List SelEv),
    SelEv.invalidMsg bad ∈ ((ts₁ ++ bad :: ts₂).foldl (tokenStep reg) (t, evs)).2 := by
  intro ts₁
  induction ts₁ with
  | nil =>
      intro t evs
      simp only [List.nil_append, List.foldl_cons, tokenStep, hbad]
      obtain ⟨tail, htail⟩ :=
        tokenFold_events_mono reg ts₂ t (evs ++ [SelEv.invalidMsg bad])
      rw [htail]
      simp
  | cons idx ts₁ ih =>
      intro t evs
      simp only [List.cons_append, List.foldl_cons]
      cases hstep : tokenStep reg (t, evs) idx with
      | mk t' evs' => exact ih t' evs'

/-- Events of the token fold survive into the events of
`processTokens`. -/
lemma mem_processTokens_events (reg : Registry)
    (selected : List BaseExtension) (ts : List String) (x : SelEv)
    (h : x ∈ (ts.foldl (tokenStep reg) ([], [])).2) :
    x ∈ (processTokens reg selected ts).2 := by
  unfold processTokens
  cases hfold : ts.foldl (tokenStep reg) ([], []) with
  | mk temp evs =>
      rw [hfold] at h
      by_cases hie : temp.isEmpty
      · simpa [hie] using h
      · simp only [hie, Bool.false_eq_true, if_false]
        simp only at h ⊢
        exact List.mem_append_left _ h

/-- C8: a token that is not a Registry key never changes the selection —
processing a line with the unknown token inserted anywhere yields the
same Selection Set as the line without it, so the remaining tokens are
still processed — and an invalid-selection report for that token is
emitted.  (All the functions involved are total: no exception
escapes.) -/
theorem c8_invalid_token (reg : Registry) (selected : List BaseExtension)
    (ts₁ ts₂ : List String) (bad : String)
    (hbad : dictGet reg bad = none) :
    (processTokens reg selected (ts₁ ++ bad :: ts₂)).1 =
      (processTokens reg selected (ts₁ ++ ts₂)).1 ∧
    SelEv.invalidMsg bad ∈ (processTokens reg selected (ts₁ ++ bad :: ts₂)).2 := by
  constructor
  · rw [processTokens_fst, processTokens_fst]
    simp [List.filterMap_append, List.filterMap_cons, hbad]
  · exact mem_processTokens_events reg selected (ts₁ ++ bad :: ts₂)
      (SelEv.invalidMsg bad)
      (invalid_mem_tokenFold reg bad hbad ts₂ ts₁ [] [])

/-- C8 witness: in the line `1 9 2` over the sample registry (where
`"9"` is unknown), the selection equals that of `1 2` and the invalid
report for `"9"` is emitted. -/
theorem c8_witness :
    (processTokens sampleReg [] (["1"] ++ "9" :: ["2"])).1 =
      (processTokens sampleReg [] (["1"] ++ ["2"])).1 ∧
    SelEv.invalidMsg "9" ∈ (processTokens sampleReg [] (["1"] ++ "9" :: ["2"])).2 :=
  c8_invalid_token sampleReg [] ["1"] ["2"] "9" (by decide)

/-! Helper lemmas about the stable sort. -/

/-- Inserting permutes to consing. -/
lemma insertSorted_perm {α : Type} (le : α → α → Bool) (x : α) :
    ∀ l : List α, List.Perm (insertSorted le x l) (x :: l) := by
  intro l
  induction l with
  | nil => rfl
  | cons y ys ih =>
      by_cases hle : le y x
      · have h1 : insertSorted le x (y :: ys) = y :: insertSorted le x ys := by
          simp [insertSorted, hle]
        rw [h1]
        exact (ih.cons y).trans (List.Perm.swap x y ys)
      · have h1 : insertSorted le x (y :: ys) = x :: y :: ys := by
          simp [insertSorted, hle]
        rw [h1]

/-- The insertion-sort fold permutes to appending. -/
lemma stableSort_perm_aux {α : Type} (le : α → α → Bool) :
    ∀ (l acc : List α),
    List.Perm (l.foldl (fun a x => insertSorted le x a) acc) (acc ++ l) := by
  intro l
  induction l with
  | nil => intro acc; simp
  | cons x xs ih =>
      intro acc
      have h1 : (x :: xs).foldl (fun a x => insertSorted le x a) acc =
          xs.foldl (fun a x => insertSorted le x a) (insertSorted le x acc) :=
        rfl
      rw [h1]
      have h2 := (ih (insertSorted le x acc)).trans
        ((insertSorted_perm le x acc).append_right xs)
      have h3 : (x :: acc) ++ xs = x :: (acc ++ xs) := rfl
      rw [h3] at h2
      exact h2.trans List.perm_middle.symm

/-- `stableSort` permutes its input. -/
lemma stableSort_perm {α : Type} (le : α → α → Bool) (l : List α) :
    List.Perm (stableSort le l) l := by
  simpa using stableSort_perm_aux le l []

/-- Membership in an insertion. -/
lemma mem_insertSorted {α : Type} (le : α → α → Bool) (x y : α) :
    ∀ l : List α, y ∈ insertSorted le x l ↔ y = x ∨ y ∈ l := by
  intro l
  induction l with
  | nil => simp [insertSorted]
  | cons z zs ih =>
      by_cases hle : le z x
      · have h1 : insertSorted le x (z :: zs) = z :: insertSorted le x zs := by
          simp [insertSorted, hle]
        rw [h1]
        simp only [List.mem_cons, ih]
        tauto
      · have h1 : insertSorted le x (z :: zs) = x :: z :: zs := by
          simp [insertSorted, hle]
        rw [h1]
        simp only [List.mem_cons]

/-- Insertion preserves sortedness (for a transitive, total
comparison). -/
lemma insertSorted_pairwise {α : Type} (le : α → α → Bool)
    (htrans : ∀ a b c, le a b = true → le b c = true → le a c = true)
    (htot : ∀ a b, le a b = true ∨ le b a = true) (x : α) :
    ∀ l : List α, l.Pairwise (fun a b => le a b = true) →
      (insertSorted le x l).Pairwise (fun a b => le a b = true) := by
  intro l
  induction l with
  | nil => intro _; simp [insertSorted]
  | cons y ys ih =>
      intro h
      rw [List.pairwise_cons] at h
      by_cases hle : le y x
      · have : insertSorted le x (y :: ys) = y :: insertSorted le x ys := by
          simp [insertSorted, hle]
        rw [this, List.pairwise_cons]
        constructor
        · intro z hz
          rcases (mem_insertSorted le x z ys).mp hz with rfl | hz'
          · exact hle
          · exact h.1 z hz'
        · exact ih h.2
      · have hxy : le x y = true := (htot x y).resolve_right hle
        have : insertSorted le x (y :: ys) = x :: y :: ys := by
          simp [insertSorted, hle]
        rw [this, List.pairwise_cons]
        constructor
        · intro z hz
          rcases List.mem_cons.mp hz with rfl | hz'
          · exact hxy
          · exact htrans x y z hxy (h.1 z hz')
        · exact List.pairwise_cons.mpr h
      
/-- The insertion-sort fold keeps the accumulator sorted. -/
lemma stableSort_pairwise_aux {α : Type} (le : α → α → Bool)
    (htrans : ∀ a b c, le a b = true → le b c = true → le a c = true)
    (htot : ∀ a b, le a b = true ∨ le b a = true) :
    ∀ (l acc : List α), acc.Pairwise (fun a b => le a b = true) →
    (l.foldl (fun a x => insertSorted le x a) acc).Pairwise
      (fun a b => le a b = true) := by
  intro l
  induction l with
  | nil => intro acc h; exact h
  | cons x xs ih =>
      intro acc h
      exact ih (insertSorted le x acc)
        (insertSorted_pairwise le htrans htot x acc h)

/-- `stableSort` sorts (for a transitive, total comparison). -/
lemma stableSort_pairwise {α : Type} (le : α → α → Bool)
    (htrans : ∀ a b c, le a b = true → le b c = true → le a c = true)
    (htot : ∀ a b, le a b = true ∨ le b a = true) (l : List α) :
    (stableSort le l).Pairwise (fun a b => le a b = true) :=
  stableSort_pairwise_aux le htrans htot l [] (by simp)

/-- The registry comparison is transitive. -/
lemma regLe_trans : ∀ a b c, regLe a b = true → regLe b c = true →
    regLe a c = true := by
  intro a b c
  simp only [regLe, decide_eq_true_eq]
  omega

/-- The registry comparison is total. -/
lemma regLe_total : ∀ a b, regLe a b = true ∨ regLe b a = true := by
  intro a b
  simp only [regLe, decide_eq_true_eq]
  omega

/-- The load results of a listing in which every package loads
successfully: the `(key, instance)` pairs in scan order. -/
def loadAll : List Pkg → Except ExcKind Registry
  | [] => Except.ok []
  | p :: ps => do
      let kv ← loadResult p
      let rest ← loadAll ps
      pure (kv :: rest)

/-- A fully successful load yields one pair per package. -/
lemma loadAll_length : ∀ (ps : List Pkg) (pairs : Registry),
    loadAll ps = Except.ok pairs → pairs.length = ps.length := by
  intro ps
  induction ps with
  | nil =>
      intro pairs h
      simp only [loadAll] at h
      injection h with h
      rw [← h]
      rfl
  | cons p ps ih =>
      intro pairs h
      rw [loadAll] at h
      cases hlr : loadResult p with
      | error e => rw [hlr] at h; simp [bind, Except.bind] at h
      | ok kv =>
          cases hla : loadAll ps with
          | error e =>
              rw [hlr, hla] at h
              simp [bind, Except.bind] at h
          | ok rest =>
              rw [hlr, hla] at h
              simp only [bind, Except.bind, pure, Except.pure] at h
              injection h with h
              rw [← h]
              simp [ih rest hla]

/-- A scan in which every package loads successfully, with keys fresh
for the accumulated dictionary and pairwise distinct, appends its pairs
in scan order and logs nothing. -/
lemma scanPkgs_all_ok : ∀ (ps : List Pkg) (pairs d : Registry)
    (evs : List LoadEv),
    (∀ p ∈ ps, p.hasMetadataJson = true) →
    loadAll ps = Except.ok pairs →
    (∀ kv ∈ pairs, ∀ kv' ∈ d, kv'.1 ≠ kv.1) →
    pairs.Pairwise (fun a b => a.1 ≠ b.1) →
    scanPkgs ps (d, evs) = Except.ok (d ++ pairs, evs) := by
  intro ps
  induction ps with
  | nil =>
      intro pairs d evs _ hload _ _
      simp only [loadAll] at hload
      injection hload with hload
      rw [← hload]
      simp [scanPkgs]
  | cons p ps ih =>
      intro pairs d evs hmeta hload hfresh hdist
      rw [loadAll] at hload
      cases hlr : loadResult p with
      | error e => rw [hlr] at hload; simp [bind, Except.bind] at hload
      | ok kv =>
          cases hla : loadAll ps with
          | error e =>
              rw [hlr, hla] at hload
              simp [bind, Except.bind] at hload
          | ok rest =>
              rw [hlr, hla] at hload
              simp only [bind, Except.bind, pure, Except.pure] at hload
              injection hload with hload
              subst hload
              have hm : p.hasMetadataJson = true := hmeta p (by simp)
              have hstep : scanStep (d, evs) p =
                  Except.ok (insertDict d kv.1 kv.2, evs) := by
                obtain ⟨k, v⟩ := kv
                simp [scanStep, hm, hlr]
              have hfree : (d.any (fun q => q.1 == kv.1)) = false := by
                rw [List.any_eq_false]
                intro q hq
                simpa using hfresh kv (by simp) q hq
              have hins : insertDict d kv.1 kv.2 = d ++ [kv] := by
                simp [insertDict, hfree]
              have hstep' : scanStep (d, evs) p = Except.ok (d ++ [kv], evs) := by
                rw [hstep, hins]
              have htail := ih rest (d ++ [kv]) evs
                (fun q hq => hmeta q (List.mem_cons_of_mem p hq)) hla
                (by
                  intro kv₂ h₂ kv' h'
                  rcases List.mem_append.mp h' with h' | h'
                  · exact hfresh kv₂ (List.mem_cons_of_mem kv h₂) kv' h'
                  · rcases List.mem_singleton.mp h' with rfl
                    exact (List.pairwise_cons.mp hdist).1 kv₂ h₂)
                (List.pairwise_cons.mp hdist).2
              calc scanPkgs (p :: ps) (d, evs)
                  = scanPkgs ps (d ++ [kv], evs) := by
                    rw [scanPkgs, hstep']
                _ = Except.ok ((d ++ [kv]) ++ rest, evs) := htail
                _ = Except.ok (d ++ kv :: rest, evs) := by
                    rw [List.append_assoc]
                    rfl

/-- C5: for a listing of valid packages — every package carries a
metadata document and loads successfully, every ordering key parses as
an integer, and the integer keys are pairwise distinct — discovery
returns (with nothing logged) exactly the sorted load pairs: one
Registry entry per package, iterated in strictly ascending order of the
integer value of the ordering key. -/
theorem c5_registry_sorted (ps : List Pkg) (pairs : Registry)
    (hmeta : ∀ p ∈ ps, p.hasMetadataJson = true)
    (hload : loadAll ps = Except.ok pairs)
    (hparse : ∀ kv ∈ pairs, (pyInt? kv.1).isSome = true)
    (hdist : pairs.Pairwise (fun a b => keyInt a ≠ keyInt b)) :
    discover_extensions ps = Except.ok (stableSort regLe pairs, []) ∧
    (stableSort regLe pairs).length = ps.length ∧
    (stableSort regLe pairs).Pairwise (fun a b => keyInt a < keyInt b) := by
  have hdistkeys : pairs.Pairwise (fun a b => a.1 ≠ b.1) := by
    refine hdist.imp ?_
    intro a b h heq
    exact h (by simp [keyInt, heq])
  have hscan : scanPkgs ps ([], []) = Except.ok (pairs, []) :=
    scanPkgs_all_ok ps pairs [] [] hmeta hload (by simp) hdistkeys
  have hall : (pairs.all (fun kv => (pyInt? kv.1).isSome)) = true :=
    List.all_eq_true.mpr hparse
  have hdisc : discover_extensions ps =
      Except.ok (stableSort regLe pairs, []) := by
    simp [discover_extensions, hscan, hall, bind, Except.bind, pure,
      Except.pure]
  refine ⟨hdisc, ?_, ?_⟩
  · rw [(stableSort_perm regLe pairs).length_eq]
    exact loadAll_length ps pairs hload
  · have hsorted := stableSort_pairwise regLe regLe_trans regLe_total pairs
    have hineq : (stableSort regLe pairs).Pairwise
        (fun a b => keyInt a ≤ keyInt b) := by
      refine hsorted.imp ?_
      intro a b h
      simpa [regLe] using h
    have hne : (stableSort regLe pairs).Pairwise
        (fun a b => keyInt a ≠ keyInt b) :=
      ((stableSort_perm regLe pairs).pairwise_iff
        (fun h => Ne.symm h)).mpr hdist
    refine (hineq.and hne).imp ?_
    intro a b h
    exact lt_of_le_of_ne h.1 h.2

/-- C5 witness: the unsorted listing `[pkgB, pkgA]` loads to the pairs
`[("2", extB), ("1", extA)]` and discovery returns them sorted into
ascending key order, two entries long. -/
theorem c5_witness :
    discover_extensions [pkgB, pkgA] =
      Except.ok (stableSort regLe [("2", extB), ("1", extA)], []) ∧
    (stableSort regLe [("2", extB), ("1", extA)]).length =
      ([pkgB, pkgA] : List Pkg).length ∧
    (stableSort regLe [("2", extB), ("1", extA)]).Pairwise
      (fun a b => keyInt a < keyInt b) :=
  c5_registry_sorted [pkgB, pkgA] [("2", extB), ("1", extA)]
    (by intro p hp; rcases List.mem_cons.mp hp with rfl | hp; · rfl
        · rcases List.mem_singleton.mp hp with rfl; rfl)
    rfl (by decide) (by decide)
